import Mathlib

/-!
Verification of the bouncing-ball teleprompter core (song-sheet parser and
playback clock) against its natural-language specification.

Modelling conventions.
Python strings are modelled as `List Char`.  The program operates on song
sheets whose characters are ASCII, where one character is one UTF-8 byte, so
the byte-level operations of the source (`bytearray` slicing in
`get_rid_of_LL`) coincide with character-level operations; the definitions
below are the character-level reading.  Wall-clock times, screen coordinates
and durations are IEEE doubles in the source; they are modelled as `ℚ`, which
is exact for the algebraic identities asserted by the specification.  The one
floating-point expression whose rounding matters, `int(0.4 * len(words))`, is
modelled as `2 * n / 5` in `Nat`; for every list length the interpreter can
encounter (far below `2 ^ 49`) the double computation provably truncates to
exactly this value.
-/

/-- Python whitespace characters in the ASCII range (the set stripped by
`str.strip`, `str.rstrip` and `bytearray.rstrip`). -/
def pyIsSpace (c : Char) : Bool :=
  c = ' ' || c = '\t' || c = '\n' || c = '\x0d' || c = '\x0b' || c = '\x0c'

/-- Python `str.rstrip()` with no argument: drop trailing whitespace. -/
def pyRstrip (l : List Char) : List Char :=
  (l.reverse.dropWhile pyIsSpace).reverse

/-- Python `str.lstrip()` with no argument: drop leading whitespace. -/
def pyLstrip (l : List Char) : List Char :=
  l.dropWhile pyIsSpace

/-- Python `str.strip()` with no argument: drop whitespace at both ends. -/
def pyStrip (l : List Char) : List Char :=
  pyRstrip (pyLstrip l)

/-- Does the needle occur at the very front of the haystack? -/
def leadAgrees : List Char → List Char → Bool
  | [], _ => true
  | _ :: _, [] => false
  | n :: ns, h :: hs => n == h && leadAgrees ns hs

/-- Python substring containment `needle in hay`. -/
def hasSubstr (hay needle : List Char) : Bool :=
  match hay with
  | [] => needle.isEmpty
  | _ :: t => leadAgrees needle hay || hasSubstr t needle

/-- Helper for `pySplit`: accumulate the current token (reversed). -/
def pySplitAux : List Char → List Char → List (List Char)
  | [], acc => if acc.isEmpty then [] else [acc.reverse]
  | c :: rest, acc =>
    if pyIsSpace c then
      if acc.isEmpty then pySplitAux rest [] else acc.reverse :: pySplitAux rest []
    else pySplitAux rest (c :: acc)

/-- Python `str.split()` with no argument: split on whitespace runs,
producing no empty tokens. -/
def pySplit (l : List Char) : List (List Char) :=
  pySplitAux l []

/-- Helper for `splitOnChar`: accumulate the current field (reversed). -/
def splitOnCharAux (sep : Char) : List Char → List Char → List (List Char)
  | [], acc => [acc.reverse]
  | c :: rest, acc =>
    if c = sep then acc.reverse :: splitOnCharAux sep rest []
    else splitOnCharAux sep rest (c :: acc)

/-- Python `str.split(sep)` with a one-character separator: keeps empty
fields, so the result is always non-empty. -/
def splitOnChar (sep : Char) (l : List Char) : List (List Char) :=
  splitOnCharAux sep l []

/-- Helper for `digitRuns`: accumulate the current run of digits (reversed). -/
def digitRunsAux : List Char → List Char → List (List Char)
  | [], acc => if acc.isEmpty then [] else [acc.reverse]
  | c :: rest, acc =>
    if c.isDigit then digitRunsAux rest (c :: acc)
    else if acc.isEmpty then digitRunsAux rest [] else acc.reverse :: digitRunsAux rest []

/-- The maximal digit runs of a string, in order: the matches of the Python
regular expression `\d+` as used by `re.findall`. -/
def digitRuns (l : List Char) : List (List Char) :=
  digitRunsAux l []

/-- Numeric value of a list of decimal digits. -/
def digitsVal (l : List Char) : Nat :=
  l.foldl (fun a c => 10 * a + (c.toNat - 48)) 0

/-- After an initial digit, Python `int()` accepts digits with single
underscores strictly between digits. -/
def intRest : List Char → Bool
  | [] => true
  | c :: rest =>
    if c = '_' then
      match rest with
      | [] => false
      | d :: rest2 => d.isDigit && intRest rest2
    else c.isDigit && intRest rest

/-- Unsigned part of Python `int()`: a leading digit followed by `intRest`. -/
def pyIntUnsigned (l : List Char) : Option Int :=
  match l with
  | [] => none
  | d :: rest =>
    if d.isDigit && intRest rest then some (Int.ofNat (digitsVal ((d :: rest).filter (fun c => c ≠ '_'))))
    else none

/-- Python `int(s)` for base 10: strips whitespace, allows one sign, then
digits with single interior underscores; `none` models `ValueError`. -/
def pyInt (l : List Char) : Option Int :=
  match pyStrip l with
  | '+' :: rest => pyIntUnsigned rest
  | '-' :: rest => (pyIntUnsigned rest).map (fun n => -n)
  | s => pyIntUnsigned s

/-- Helper for `expandtabs4`: walk the string with a column counter, the
semantics of Python `str.expandtabs(4)`. -/
def expandtabsGo : Nat → List Char → List Char
  | _, [] => []
  | col, c :: rest =>
    if c = '\t' then
      List.replicate (4 - col % 4) ' ' ++ expandtabsGo (col + (4 - col % 4)) rest
    else if c = '\n' ∨ c = '\x0d' then c :: expandtabsGo 0 rest
    else c :: expandtabsGo (col + 1) rest

/-- Python `str.expandtabs(4)`. -/
def expandtabs4 (l : List Char) : List Char :=
  expandtabsGo 0 l

/-- The Python regular expression `(\d{2})$` used by `get_rid_of_LL`: in
Python `$` matches at the end of the string or just before a final newline,
so the search succeeds when two digits sit at the end (possibly followed by
one trailing newline). -/
def tagDigitsAtEnd (l : List Char) : Bool :=
  match l.reverse with
  | '\n' :: a :: b :: _ => a.isDigit && b.isDigit
  | '\n' :: _ => false
  | a :: b :: _ => a.isDigit && b.isDigit
  | _ => false

/-- Transcription of `get_rid_of_LL` (identical in both source variants):
expand tabs; if the line contains the marker `LL` and ends in two digits,
drop the last five characters and trailing whitespace, and if the remainder
still contains `ZZZ` anywhere, drop three further characters from the end. -/
def get_rid_of_LL (cleaned_line : List Char) : List Char :=
  let l := expandtabs4 cleaned_line
  if hasSubstr l ['L', 'L'] then
    if tagDigitsAtEnd l then
      let l2 := pyRstrip (l.take (l.length - 5))
      if hasSubstr l2 ['Z', 'Z', 'Z'] then l2.take (l2.length - 3) else l2
    else l
  else l

/-- The fixed chord vocabulary of the source (the module constant `CHORDS`). -/
def CHORDS : List (List Char) :=
  [ ("C").data, ("D").data, ("E").data, ("F").data, ("G").data, ("A").data, ("B").data,
    ("Cm").data, ("Dm").data, ("Em").data, ("Fm").data, ("Gm").data, ("Am").data, ("Bm").data,
    ("C7").data, ("D7").data, ("E7").data, ("F7").data, ("G7").data, ("A7").data, ("B7").data,
    ("Cm7").data, ("Dm7").data, ("Em7").data, ("Fm7").data, ("Gm7").data, ("Am7").data, ("Bm7").data,
    ("Cmaj7").data, ("Dmaj7").data, ("Emaj7").data, ("Fmaj7").data, ("Gmaj7").data, ("Amaj7").data, ("Bmaj7").data,
    ("C♭").data, ("D♭").data, ("E♭").data, ("F♭").data, ("G♭").data, ("A♭").data, ("B♭").data,
    ("C♯").data, ("D♯").data, ("E♯").data, ("F♯").data, ("G♯").data, ("A♯").data, ("B♯").data,
    ("C♭m").data, ("D♭m").data, ("E♭m").data, ("F♭m").data, ("G♭m").data, ("A♭m").data, ("B♭m").data,
    ("C♯m").data, ("D♯m").data, ("E♯m").data, ("F♯m").data, ("G♯m").data, ("A♯m").data, ("B♯m").data,
    ("Csus4").data, ("Dsus4").data, ("Esus4").data, ("Fsus4").data, ("Gsus4").data, ("Asus4").data, ("Bsus4").data,
    ("Csus2").data, ("Dsus2").data, ("Esus2").data, ("Fsus2").data, ("Gsus2").data, ("Asus2").data, ("Bsus2").data,
    ("Cdim").data, ("Ddim").data, ("Edim").data, ("Fdim").data, ("Gdim").data, ("Adim").data, ("Bdim").data,
    ("Caug").data, ("Daug").data, ("Eaug").data, ("Faug").data, ("Gaug").data, ("Aaug").data, ("Baug").data,
    ("Cadd9").data, ("Dadd9").data, ("Eadd9").data, ("Fadd9").data, ("Gadd9").data, ("Aadd9").data, ("Badd9").data ]

/-- Python `word.replace('[', '').replace(']', '')`: remove every bracket. -/
def removeBrackets (l : List Char) : List Char :=
  l.filter (fun c => c ≠ '[' && c ≠ ']')

/-- Transcription of `check_for_chord_line` from
`rainbow_6_090325_version_902pm.py`: an empty line fails; otherwise split on
whitespace, let the threshold be `int(0.4 * len(words))` (exactly
`2 * n / 5` in integer arithmetic, see the module comment) and succeed when
at least that many tokens, after bracket removal and stripping, are chord
spellings. -/
def check_for_chord_line (line : List Char) : Bool :=
  if line.isEmpty then false
  else
    decide (2 * (pySplit line).length / 5 ≤
      ((pySplit line).filter (fun w => CHORDS.contains (pyStrip (removeBrackets w)))).length)

/-- Does a character match the Python character class `[\a-zA-Z\s]` (the
bell character, an ASCII letter, or whitespace)? -/
def regexLetterSpace (c : Char) : Bool :=
  c = '\x07' || ('a' ≤ c && c ≤ 'z') || ('A' ≤ c && c ≤ 'Z') || pyIsSpace c

/-- The four streams a recognized line can be routed to. -/
inductive LineType where
  | sections
  | chords
  | lyrics
  | beats
  deriving DecidableEq

/-- Transcription of `categorize_line`: strip the line; a line containing
both brackets is a section; otherwise a line passing the chord test is a
chord line; otherwise a line containing a letter, bell or whitespace
character is a beat line when it contains `ZZZ` and a lyric line when not;
anything else is dropped (Python falls off the function, returning `None`). -/
def categorize_line (line : List Char) : Option LineType :=
  let cleaned := pyStrip line
  if cleaned.contains '[' && cleaned.contains ']' then some LineType.sections
  else if check_for_chord_line cleaned then some LineType.chords
  else if cleaned.any regexLetterSpace then
    if hasSubstr cleaned ['Z', 'Z', 'Z'] then some LineType.beats else some LineType.lyrics
  else none

/-- Transcription of `parse_time_signature`: with a slash, strip and split
on `/` and convert the first two fields with `int()` (any `ValueError` or
`IndexError` falls back to `(4, 4)`); without a slash, take the first two
digit runs; otherwise `(4, 4)`. -/
def parse_time_signature (s : List Char) : Int × Int :=
  if s.contains '/' then
    match splitOnChar '/' (pyStrip s) with
    | p0 :: p1 :: _ =>
      match pyInt p0, pyInt p1 with
      | some n, some d => (n, d)
      | _, _ => (4, 4)
    | _ => (4, 4)
  else
    match digitRuns s with
    | a :: b :: _ => (Int.ofNat (digitsVal a), Int.ofNat (digitsVal b))
    | _ => (4, 4)

/-- Transcription of the `BOUNCES_PER_LINE` selection: numerator 3 gives 4
bounces per line, numerator 4 gives 8, anything else gives the numerator. -/
def bouncesPerLine (beats_per_measure : Int) : Int :=
  if beats_per_measure = 3 then 4
  else if beats_per_measure = 4 then 8
  else beats_per_measure

/-- Transcription of the `song_data` comprehension: split the raw text on
newlines, keep the lines that are non-blank (non-empty after stripping) and
right-strip each kept line. -/
def songDataOf (raw : List Char) : List (List Char) :=
  (((splitOnChar '\n' raw).filter (fun l => ¬ (pyStrip l).isEmpty)).map pyRstrip)

/-- The in-memory result of loading a song sheet: title, parsed time
signature, and the four classified streams. -/
structure SongDocument where
  title : List Char
  beats_per_measure : Int
  note_value : Int
  sections : List (List Char)
  chords : List (List Char)
  lyrics : List (List Char)
  beats : List (List Char)
  deriving DecidableEq

/-- Transcription of the load-time parsing pipeline: build `song_data`, take
the title from line 1 (default `[No title]`), the time-signature string from
line 2 (default `4/4`), parse it, and classify every remaining line into the
four streams, silently dropping unrecognized lines.  The source has no error
path: every raw text yields a document. -/
def parse (raw : List Char) : SongDocument :=
  let song_data := songDataOf raw
  let title := song_data.headD (("[No title]").data)
  let ts := parse_time_signature (song_data.getD 1 (("4/4").data))
  let remaining := song_data.drop 2
  { title := title
    beats_per_measure := ts.1
    note_value := ts.2
    sections := remaining.filter (fun l => categorize_line l = some LineType.sections)
    chords := remaining.filter (fun l => categorize_line l = some LineType.chords)
    lyrics := remaining.filter (fun l => categorize_line l = some LineType.lyrics)
    beats := remaining.filter (fun l => categorize_line l = some LineType.beats) }

/-- The `start` scan of `extract_item_at_position`: from `char_index`, walk
left while the preceding character exists and is not a space. -/
def find_start (line : List Char) : Nat → Nat
  | 0 => 0
  | s + 1 => if line.getD s ' ' = ' ' then s + 1 else find_start line s

/-- The `end` scan of `extract_item_at_position`: from `e`, walk right while
inside the line and not on a space. -/
def find_end (l : List Char) (e : Nat) : Nat :=
  if h : e < l.length then
    if l[e] = ' ' then e else find_end l (e + 1)
  else e
termination_by l.length - e

/-- Transcription of `extract_item_at_position`: an index at or past the end
of the line yields the empty string; otherwise expand from the index to the
enclosing space boundaries and strip the slice. -/
def extract_item_at_position (line : List Char) (char_index : Nat) : List Char :=
  if line.length ≤ char_index then []
  else
    pyStrip ((line.drop (find_start line char_index)).take
      (find_end line char_index - find_start line char_index))

/-- The token at a character offset as the specification words it: the
characters from the previous space (or line start) through the next space
(or line end) around the offset. -/
def tokenAtSpec (line : List Char) (i : Nat) : List Char :=
  ((line.take i).reverse.takeWhile (fun c => c ≠ ' ')).reverse ++
    (line.drop i).takeWhile (fun c => c ≠ ' ')

/-- Transcription of `extract_chords_and_words`: for each
`(beatNumber, charOffset)` pair, extract the chord token and the lyric token
at that offset. -/
def extract_chords_and_words (chord_line lyric_line : List Char)
    (beat_positions : List (Int × Nat)) : List (Int × List Char × List Char) :=
  beat_positions.map (fun p =>
    (p.1, extract_item_at_position chord_line p.2, extract_item_at_position lyric_line p.2))

/-- The timing configuration the main loop reads: durations, gravity, the
two vertical extremes of the ball, and the line-advance constants.
`have_lines` models the Python truthiness test `if chords and lyrics`. -/
structure ClockCfg where
  base_bounce_duration : ℚ
  bounce_duration : ℚ
  gravity : ℚ
  ball_top : ℚ
  ball_bottom : ℚ
  bounces_per_line : Nat
  lines_in_song : Nat
  have_lines : Bool
  deriving DecidableEq

/-- The mutable playback state of the main loop.  In the source
`bounce_start_time` is `None` only while `waiting_for_start` is true, where
it is never read before being reassigned, so it is modelled as a plain
rational. -/
structure PlayState where
  current_index : Nat
  bounce_count : Nat
  ball_y : ℚ
  bounce_start_time : ℚ
  song_paused : Bool
  pause_time : ℚ
  waiting_for_start : Bool
  rising : Bool
  falling : Bool
  song_line_number : Int
  deriving DecidableEq

/-- Transcription of `calculateGravity`: `fall_time = duration / 2`,
`gravity = 2 * (bottom - top) / fall_time ^ 2`. -/
def calculate_gravity (top bottom duration : ℚ) : ℚ :=
  2 * (bottom - top) / ((duration / 2) ^ 2)

/-- Transcription of the speed-slider handler: the new bounce duration is
the base duration divided by the multiplier, and gravity is recomputed from
it; nothing else changes. -/
def set_speed (cfg : ClockCfg) (multiplier : ℚ) : ClockCfg :=
  { cfg with
    bounce_duration := cfg.base_bounce_duration / multiplier
    gravity := calculate_gravity cfg.ball_top cfg.ball_bottom
      (cfg.base_bounce_duration / multiplier) }

/-- Transcription of `handle_play_pause_action`: from waiting, start (reset
the index if past the start and stamp the bounce start); from paused, resume
by shifting the bounce start by the pause duration; otherwise pause,
recording the pause time. -/
def handle_play_pause_action (current_time : ℚ) (s : PlayState) : PlayState :=
  if s.waiting_for_start then
    { s with
      current_index := if 0 < s.current_index then 0 else s.current_index
      waiting_for_start := false
      bounce_start_time := current_time }
  else if s.song_paused then
    { s with
      bounce_start_time := s.bounce_start_time + (current_time - s.pause_time)
      song_paused := false }
  else
    { s with song_paused := true, pause_time := current_time }

/-- Transcription of the per-frame timing logic at the bottom of the main
loop (the code after the event handling): paused (or dragging) and waiting
states suspend evolution; otherwise with `dt = now - bounce_start_time`, a
`dt` within the first half of the bounce duration is the falling phase with
`ball_y = top + g / 2 * dt ^ 2` clamped to the bottom, a `dt` within the
second half is the rising phase with the mirrored formula clamped to the
top, and a `dt` beyond the bounce duration completes the bounce: the start
time is stamped to `now`, the ball returns to the top, the bounce count
increments and, on reaching `bounces_per_line`, resets to zero while the
line advances or, at the last line, playback returns to waiting. -/
def tick (cfg : ClockCfg) (now : ℚ) (s : PlayState) : PlayState :=
  if s.song_paused then s
  else if s.waiting_for_start then { s with ball_y := cfg.ball_top }
  else if now - s.bounce_start_time ≤ cfg.bounce_duration then
    if now - s.bounce_start_time ≤ cfg.bounce_duration / 2 then
      { s with
        falling := true
        rising := false
        ball_y :=
          if cfg.ball_bottom ≤
              cfg.ball_top + 1 / 2 * cfg.gravity * (now - s.bounce_start_time) ^ 2 then
            cfg.ball_bottom
          else cfg.ball_top + 1 / 2 * cfg.gravity * (now - s.bounce_start_time) ^ 2 }
    else
      { s with
        falling := false
        rising := true
        ball_y :=
          if cfg.ball_top + 1 / 2 * cfg.gravity *
                (cfg.bounce_duration / 2 - (now - s.bounce_start_time - cfg.bounce_duration / 2)) ^ 2 <
              cfg.ball_top then
            cfg.ball_top
          else
            cfg.ball_top + 1 / 2 * cfg.gravity *
              (cfg.bounce_duration / 2 - (now - s.bounce_start_time - cfg.bounce_duration / 2)) ^ 2 }
  else
    if cfg.bounces_per_line ≤ s.bounce_count + 1 then
      if cfg.have_lines then
        if s.current_index < cfg.lines_in_song - 1 then
          { s with
            bounce_start_time := now
            ball_y := cfg.ball_top
            bounce_count := 0
            current_index := s.current_index + 1
            song_line_number := s.song_line_number + 1 }
        else
          { s with
            bounce_start_time := now
            ball_y := cfg.ball_top
            bounce_count := 0
            waiting_for_start := true }
      else
        { s with bounce_start_time := now, ball_y := cfg.ball_top, bounce_count := 0 }
    else
      { s with
        bounce_start_time := now
        ball_y := cfg.ball_top
        bounce_count := s.bounce_count + 1 }

lemma expandtabsGo_eq_self (l : List Char) : ∀ (col : Nat), (∀ c ∈ l, c ≠ '\t') →
    expandtabsGo col l = l := by
  induction l with
  | nil => intro col h; rfl
  | cons c rest ih =>
    intro col h
    have hc : c ≠ '\t' := h c (List.mem_cons_self c rest)
    have hrest : ∀ d ∈ rest, d ≠ '\t' := fun d hd => h d (List.mem_cons_of_mem c hd)
    by_cases hn : c = '\n' ∨ c = '\x0d'
    · simp [expandtabsGo, hc, hn, ih 0 hrest]
    · simp [expandtabsGo, hc, hn, ih _ hrest]

lemma mem_expandtabsGo (l : List Char) : ∀ (col : Nat) (c : Char),
    c ∈ expandtabsGo col l → c ≠ '\t' := by
  induction l with
  | nil => intro col c h; simp [expandtabsGo] at h
  | cons a rest ih =>
    intro col c h
    by_cases ha : a = '\t'
    · rw [expandtabsGo, if_pos ha] at h
      rcases List.mem_append.mp h with h1 | h1
      · have := List.eq_of_mem_replicate h1
        subst this; decide
      · exact ih _ c h1
    · by_cases hn : a = '\n' ∨ a = '\x0d'
      · rw [expandtabsGo, if_neg ha, if_pos hn] at h
        rcases List.mem_cons.mp h with h1 | h1
        · subst h1; exact ha
        · exact ih _ c h1
      · rw [expandtabsGo, if_neg ha, if_neg hn] at h
        rcases List.mem_cons.mp h with h1 | h1
        · subst h1; exact ha
        · exact ih _ c h1

lemma mem_pyRstrip {c : Char} {l : List Char} (h : c ∈ pyRstrip l) : c ∈ l := by
  unfold pyRstrip at h
  rw [List.mem_reverse] at h
  have := (List.dropWhile_sublist pyIsSpace (l := l.reverse)).mem h
  rwa [List.mem_reverse] at this

lemma get_rid_of_LL_no_tab (x : List Char) : ∀ c ∈ get_rid_of_LL x, c ≠ '\t' := by
  intro c hc
  unfold get_rid_of_LL at hc
  dsimp only at hc
  have base : ∀ d ∈ expandtabs4 x, d ≠ '\t' := fun d hd => mem_expandtabsGo x 0 d hd
  split_ifs at hc with h1 h2 h3
  · exact base c (List.take_subset _ _ (mem_pyRstrip (List.take_subset _ _ hc)))
  · exact base c (List.take_subset _ _ (mem_pyRstrip hc))
  · exact base c hc
  · exact base c hc

lemma get_rid_of_LL_fixed (y : List Char) (htab : ∀ c ∈ y, c ≠ '\t')
    (h : ¬(hasSubstr y ['L', 'L'] = true ∧ tagDigitsAtEnd y = true)) :
    get_rid_of_LL y = y := by
  unfold get_rid_of_LL
  dsimp only
  rw [show expandtabs4 y = y from expandtabsGo_eq_self y 0 htab]
  split_ifs with h1 h2 h3
  · exact absurd ⟨h1, h2⟩ h
  · exact absurd ⟨h1, h2⟩ h
  · rfl
  · rfl

/-- C2 counterexample: stripping is not idempotent.  The line `LL12ABC12`
carries a trailing two-digit tag, so one strip yields `LL12`; but that
result again contains `LL` and ends in two digits, so a second strip removes
everything. -/
theorem c2_counterexample :
    get_rid_of_LL (get_rid_of_LL (("LL12ABC12").data)) ≠
      get_rid_of_LL (("LL12ABC12").data) := by
  decide

/-- C2 (amended): tag stripping is idempotent on every line whose stripped
form does not again carry a tag (does not both contain `LL` and end in two
digits); on lines such as `LL12ABC12`, whose stripped form `LL12` still
carries a tag, a second strip removes more. -/
theorem c2_strip_idempotent (x : List Char)
    (h : ¬(hasSubstr (get_rid_of_LL x) ['L', 'L'] = true ∧
        tagDigitsAtEnd (get_rid_of_LL x) = true)) :
    get_rid_of_LL (get_rid_of_LL x) = get_rid_of_LL x :=
  get_rid_of_LL_fixed (get_rid_of_LL x) (get_rid_of_LL_no_tab x) h

/-- C2 witness: the line `hello LL09` strips to `hello`, which carries no
tag, so the amended idempotence theorem applies to it. -/
theorem c2_strip_idempotent_witness :
    get_rid_of_LL (get_rid_of_LL (("hello LL09").data)) =
      get_rid_of_LL (("hello LL09").data) :=
  c2_strip_idempotent (("hello LL09").data) (by decide)

lemma getD_of_length_le {α : Type} (l : List α) (d : α) (i : Nat)
    (h : l.length ≤ i) : l.getD i d = d := by
  rw [List.getD_eq_getD_get?, List.get?_eq_none.mpr h]
  rfl

/-- C1 counterexample: an empty raw text has zero non-blank lines, yet
`parse` does not fail — it silently returns a document with the fallback
title `[No title]` and the default 4/4 time signature.  The source has no
`ParseError` (or any other failure path) at all: `song_data[0]` and
`song_data[1]` are guarded by length checks that substitute defaults. -/
theorem c1_counterexample :
    songDataOf (("").data) = [] ∧
      parse (("").data) =
        { title := ("[No title]").data
          beats_per_measure := 4
          note_value := 4
          sections := []
          chords := []
          lyrics := []
          beats := [] } := by
  constructor
  · decide
  · decide

/-- C1 (amended): parsing never fails.  For every raw text with fewer than
2 non-blank lines the shortfall is recovered silently, not surfaced: the
time signature defaults to 4/4, the four streams are empty, and the title is
the first non-blank line when present and `[No title]` otherwise. -/
theorem c1_parse_never_fails (raw : List Char)
    (h : (songDataOf raw).length < 2) :
    (parse raw).beats_per_measure = 4 ∧ (parse raw).note_value = 4 ∧
      (parse raw).sections = [] ∧ (parse raw).chords = [] ∧
      (parse raw).lyrics = [] ∧ (parse raw).beats = [] ∧
      (parse raw).title = (songDataOf raw).headD (("[No title]").data) := by
  have hts : (songDataOf raw).getD 1 (("4/4").data) = ("4/4").data :=
    getD_of_length_le _ _ _ (by omega)
  have hdrop : (songDataOf raw).drop 2 = [] :=
    List.drop_eq_nil_of_le (by omega)
  unfold parse
  dsimp only
  rw [hts, hdrop]
  refine ⟨by decide, by decide, rfl, rfl, rfl, rfl, rfl⟩

/-- C1 witness: a raw text with a single non-blank line satisfies the
hypothesis of the amended theorem, and its title is that line. -/
theorem c1_parse_never_fails_witness :
    (songDataOf (("Rainbow Connection").data)).length < 2 ∧
      (parse (("Rainbow Connection").data)).beats_per_measure = 4 ∧
      (parse (("Rainbow Connection").data)).title = ("Rainbow Connection").data := by
  have h : (songDataOf (("Rainbow Connection").data)).length < 2 := by decide
  have hc := c1_parse_never_fails (("Rainbow Connection").data) h
  exact ⟨h, hc.1, by rw [hc.2.2.2.2.2.2]; decide⟩

/-- The number of whitespace tokens of a line whose bracket-stripped form is
in the chord vocabulary (the `match_count` of `check_for_chord_line`). -/
def chordMatchCount (line : List Char) : Nat :=
  ((pySplit line).filter (fun w => CHORDS.contains (pyStrip (removeBrackets w)))).length

lemma check_for_chord_line_iff (line : List Char) (hne : line ≠ []) :
    check_for_chord_line line = true ↔
      2 * (pySplit line).length / 5 ≤ chordMatchCount line := by
  unfold check_for_chord_line
  rw [if_neg (by simpa [List.isEmpty_iff] using hne)]
  simp [chordMatchCount]

/-- C6: for every non-blank line that is not a section line (does not
contain both brackets), the classifier declares it a chord line exactly when
the number of tokens matching the chord vocabulary (brackets stripped)
reaches the threshold `int(0.4 * tokenCount)`, which integer arithmetic
renders as `2 * tokenCount / 5`. -/
theorem c6_chord_threshold (line : List Char)
    (hne : pyStrip line ≠ [])
    (hsec : ((pyStrip line).contains '[' && (pyStrip line).contains ']') = false) :
    (categorize_line line = some LineType.chords ↔
      2 * (pySplit (pyStrip line)).length / 5 ≤ chordMatchCount (pyStrip line)) := by
  unfold categorize_line
  dsimp only
  rw [hsec]
  simp only [Bool.false_eq_true, if_false]
  by_cases hc : check_for_chord_line (pyStrip line) = true
  · rw [if_pos hc]
    simp only [true_iff, Option.some.injEq]
    exact (check_for_chord_line_iff (pyStrip line) hne).mp hc
  · rw [if_neg hc]
    constructor
    · intro h
      split_ifs at h <;> simp_all
    · intro h
      exact absurd ((check_for_chord_line_iff (pyStrip line) hne).mpr h) hc

/-- C6 witness: the line `C G Am F` has four tokens, all chords, and
threshold `int(0.4 * 4) = 1`, so it is classified as a chord line. -/
theorem c6_chord_threshold_witness :
    categorize_line (("C G Am F").data) = some LineType.chords :=
  (c6_chord_threshold (("C G Am F").data) (by decide) (by decide)).mpr (by decide)

/-- C9: every non-blank, non-section line with fewer than 3 whitespace
tokens has threshold `int(0.4 * tokenCount) = 0`, so it is classified as a
chord line no matter how few (even zero) of its tokens are chords. -/
theorem c9_short_lines_are_chords (line : List Char)
    (hne : pyStrip line ≠ [])
    (hsec : ((pyStrip line).contains '[' && (pyStrip line).contains ']') = false)
    (htok : (pySplit (pyStrip line)).length < 3) :
    2 * (pySplit (pyStrip line)).length / 5 = 0 ∧
      categorize_line line = some LineType.chords := by
  have hz : 2 * (pySplit (pyStrip line)).length / 5 = 0 := by omega
  exact ⟨hz, (c6_chord_threshold line hne hsec).mpr (by omega)⟩

/-- C9 witness: the two-token lyric text `Hello world` is non-blank and
non-section, so the threshold is 0 and it lands in the chord stream. -/
theorem c9_short_lines_are_chords_witness :
    2 * (pySplit (pyStrip (("Hello world").data))).length / 5 = 0 ∧
      categorize_line (("Hello world").data) = some LineType.chords :=
  c9_short_lines_are_chords (("Hello world").data) (by decide) (by decide) (by decide)

lemma dropWhile_eq_self_of (p : Char → Bool) (l : List Char)
    (h : ∀ c ∈ l, p c = false) : l.dropWhile p = l := by
  cases l with
  | nil => rfl
  | cons c t =>
    rw [List.dropWhile_cons, if_neg]
    rw [h c (List.mem_cons_self c t)]
    simp

lemma pyStrip_of_no_space (l : List Char) (h : ∀ c ∈ l, pyIsSpace c = false) :
    pyStrip l = l := by
  unfold pyStrip pyLstrip pyRstrip
  rw [dropWhile_eq_self_of _ _ h]
  rw [dropWhile_eq_self_of _ _ (fun c hc => h c (List.mem_reverse.mp hc))]
  exact List.reverse_reverse l

lemma digit_not_space (c : Char) (h : c.isDigit = true) : pyIsSpace c = false := by
  unfold pyIsSpace
  simp only [Bool.or_eq_false_iff, decide_eq_false_iff_not]
  refine ⟨⟨⟨⟨⟨?_, ?_⟩, ?_⟩, ?_⟩, ?_⟩, ?_⟩ <;> rintro rfl <;> exact absurd h (by decide)

lemma digit_ne_char (c d : Char) (h : c.isDigit = true) (hd : d.isDigit = false) :
    c ≠ d := by
  rintro rfl
  rw [h] at hd
  simp at hd

lemma splitOnCharAux_no_sep (sep : Char) (b : List Char) :
    ∀ acc : List Char, (∀ c ∈ b, c ≠ sep) →
      splitOnCharAux sep b acc = [acc.reverse ++ b] := by
  induction b with
  | nil => intro acc _; simp [splitOnCharAux]
  | cons c t ih =>
    intro acc h
    have hc : c ≠ sep := h c (List.mem_cons_self c t)
    rw [splitOnCharAux, if_neg hc, ih (c :: acc) (fun d hd => h d (List.mem_cons_of_mem c hd))]
    simp

lemma splitOnCharAux_sep_middle (sep : Char) (a b : List Char) :
    ∀ acc : List Char, (∀ c ∈ a, c ≠ sep) →
      splitOnCharAux sep (a ++ sep :: b) acc =
        (acc.reverse ++ a) :: splitOnCharAux sep b [] := by
  induction a with
  | nil =>
    intro acc _
    rw [List.nil_append, splitOnCharAux, if_pos rfl]
    simp
  | cons c t ih =>
    intro acc h
    have hc : c ≠ sep := h c (List.mem_cons_self c t)
    rw [List.cons_append, splitOnCharAux, if_neg hc,
      ih (c :: acc) (fun d hd => h d (List.mem_cons_of_mem c hd))]
    simp

lemma intRest_of_digits (t : List Char) (h : ∀ c ∈ t, c.isDigit = true) :
    intRest t = true := by
  induction t with
  | nil => rfl
  | cons c r ih =>
    have hc : c.isDigit = true := h c (List.mem_cons_self c r)
    have hc2 : c ≠ '_' := digit_ne_char c '_' hc (by decide)
    rw [intRest.eq_def]
    dsimp only
    rw [if_neg hc2, hc, ih (fun d hd => h d (List.mem_cons_of_mem c hd))]
    rfl

lemma pyIntUnsigned_of_digits (a : List Char) (hne : a ≠ [])
    (h : ∀ c ∈ a, c.isDigit = true) :
    pyIntUnsigned a = some (Int.ofNat (digitsVal a)) := by
  cases a with
  | nil => exact absurd rfl hne
  | cons d t =>
    have hd : d.isDigit = true := h d (List.mem_cons_self d t)
    have hrest : intRest t = true := intRest_of_digits t (fun c hc => h c (List.mem_cons_of_mem d hc))
    have hfilter : (d :: t).filter (fun c => c ≠ '_') = d :: t := by
      apply List.filter_eq_self.mpr
      intro c hc
      simpa using digit_ne_char c '_' (h c hc) (by decide)
    rw [pyIntUnsigned, if_pos (by rw [hd, hrest]; rfl), hfilter]

lemma pyInt_of_digits (a : List Char) (hne : a ≠ [])
    (h : ∀ c ∈ a, c.isDigit = true) :
    pyInt a = some (Int.ofNat (digitsVal a)) := by
  have hstrip : pyStrip a = a := pyStrip_of_no_space a (fun c hc => digit_not_space c (h c hc))
  rw [pyInt.eq_def, hstrip]
  split
  · exact absurd (h _ (List.mem_cons_self _ _)) (by decide)
  · exact absurd (h _ (List.mem_cons_self _ _)) (by decide)
  · exact pyIntUnsigned_of_digits a hne h

/-- C7: the time-signature string `N/D` parses to `(N, D)`; without a slash
the first two digit runs found anywhere are used; with no slash and fewer
than two digit runs the result defaults to `(4, 4)`; and bounces-per-line is
4 for numerator 3, 8 for numerator 4, and the numerator itself otherwise. -/
theorem c7_time_signature :
    (∀ a b : List Char, a ≠ [] → b ≠ [] →
      (∀ c ∈ a, c.isDigit = true) → (∀ c ∈ b, c.isDigit = true) →
      parse_time_signature (a ++ '/' :: b) =
        (Int.ofNat (digitsVal a), Int.ofNat (digitsVal b))) ∧
    (∀ (s r1 r2 : List Char) (rest : List (List Char)),
      s.contains '/' = false → digitRuns s = r1 :: r2 :: rest →
      parse_time_signature s = (Int.ofNat (digitsVal r1), Int.ofNat (digitsVal r2))) ∧
    (∀ s : List Char, s.contains '/' = false → (digitRuns s).length < 2 →
      parse_time_signature s = (4, 4)) ∧
    (bouncesPerLine 3 = 4 ∧ bouncesPerLine 4 = 8 ∧
      ∀ n : Int, n ≠ 3 → n ≠ 4 → bouncesPerLine n = n) := by
  refine ⟨?_, ?_, ?_, by decide, by decide, ?_⟩
  · intro a b hna hnb hda hdb
    have hslash : (a ++ '/' :: b).contains '/' = true := by
      simp [List.contains]
    have hnospace : ∀ c ∈ a ++ '/' :: b, pyIsSpace c = false := by
      intro c hc
      rcases List.mem_append.mp hc with h1 | h1
      · exact digit_not_space c (hda c h1)
      · rcases List.mem_cons.mp h1 with h2 | h2
        · subst h2; decide
        · exact digit_not_space c (hdb c h2)
    have hsplit : splitOnChar '/' (a ++ '/' :: b) = [a, b] := by
      unfold splitOnChar
      rw [splitOnCharAux_sep_middle '/' a b []
          (fun c hc => digit_ne_char c '/' (hda c hc) (by decide)),
        splitOnCharAux_no_sep '/' b []
          (fun c hc => digit_ne_char c '/' (hdb c hc) (by decide))]
      simp
    unfold parse_time_signature
    rw [if_pos hslash, pyStrip_of_no_space _ hnospace, hsplit]
    dsimp only
    rw [pyInt_of_digits a hna hda, pyInt_of_digits b hnb hdb]
  · intro s r1 r2 rest hs hr
    unfold parse_time_signature
    rw [if_neg (by simpa using hs), hr]
  · intro s hs hlen
    unfold parse_time_signature
    rw [if_neg (by simpa using hs)]
    cases hC : digitRuns s with
    | nil => rfl
    | cons x t =>
      cases t with
      | nil => rfl
      | cons y rest =>
        rw [hC] at hlen
        exact absurd hlen (by simp)
  · intro n h3 h4
    unfold bouncesPerLine
    rw [if_neg h3, if_neg h4]

/-- C7 witness: concrete instances of each clause, including the 4/4
fallback and the non-slash extraction. -/
theorem c7_time_signature_witness :
    parse_time_signature (("3").data ++ '/' :: ("4").data) = (3, 4) ∧
      parse_time_signature (("a3b4").data) = (3, 4) ∧
      parse_time_signature (("xyz").data) = (4, 4) ∧
      bouncesPerLine 5 = 5 := by
  obtain ⟨ha, hb, hc, -, -, hd⟩ := c7_time_signature
  refine ⟨?_, ?_, ?_, ?_⟩
  · exact (ha (("3").data) (("4").data) (by decide) (by decide) (by decide) (by decide)).trans
      (by decide)
  · exact (hb (("a3b4").data) (("3").data) (("4").data) [] (by decide) (by decide)).trans
      (by decide)
  · exact hc (("xyz").data) (by decide) (by decide)
  · exact hd 5 (by decide) (by decide)
lemma find_start_take (l : List Char) :
    ∀ i : Nat, i ≤ l.length →
      find_start l i ≤ i ∧
      (l.drop (find_start l i)).take (i - find_start l i) =
        ((l.take i).reverse.takeWhile (fun c => c ≠ ' ')).reverse := by
  intro i
  induction i with
  | zero => intro _; exact ⟨Nat.le_refl 0, by simp⟩
  | succ s ih =>
    intro h
    have hs : s < l.length := Nat.lt_of_succ_le h
    have hget : l[s]? = some l[s] := List.getElem?_eq_getElem hs
    have htake : l.take (s + 1) = l.take s ++ [l[s]] := by
      rw [List.take_succ, hget]
      rfl
    have hgetD : l.getD s ' ' = l[s] := by
      rw [List.getD_eq_getD_get?, List.get?_eq_getElem?, hget]
      rfl
    by_cases hc : l[s] = ' '
    · have hfs : find_start l (s + 1) = s + 1 := by
        rw [find_start, hgetD, if_pos hc]
      refine ⟨Nat.le_of_eq hfs, ?_⟩
      rw [hfs, Nat.sub_self, List.take_zero, htake, List.reverse_append]
      simp [List.takeWhile_cons, hc]
    · have hfs : find_start l (s + 1) = find_start l s := by
        rw [find_start, hgetD, if_neg hc]
      obtain ⟨hle, heq⟩ := ih (Nat.le_of_lt hs)
      refine ⟨hfs ▸ hle.trans (Nat.le_succ s), ?_⟩
      have hsub : s + 1 - find_start l s = (s - find_start l s) + 1 := by omega
      have hget2 : (l.drop (find_start l s))[s - find_start l s]? =
          some l[s] := by
        rw [List.getElem?_drop,
          show find_start l s + (s - find_start l s) = s from by omega, hget]
      rw [hfs, htake, List.reverse_append, hsub, List.take_succ, hget2,
        List.reverse_singleton, List.singleton_append, List.takeWhile_cons]
      simp only [hc, not_false_iff, decide_True, decide_not, decide_False, Bool.not_false,
        if_true, List.reverse_cons, heq]
      rfl

lemma find_end_take (l : List Char) (i : Nat) :
    i ≤ find_end l i ∧
    (l.drop i).take (find_end l i - i) =
      (l.drop i).takeWhile (fun c => c ≠ ' ') := by
  rw [find_end]
  by_cases h : i < l.length
  · rw [dif_pos h]
    have hdrop : l.drop i = l[i] :: l.drop (i + 1) :=
      List.drop_eq_getElem_cons h
    by_cases hc : l[i] = ' '
    · rw [if_pos hc]
      refine ⟨Nat.le_refl i, ?_⟩
      rw [Nat.sub_self, List.take_zero, hdrop]
      simp [List.takeWhile_cons, hc]
    · rw [if_neg hc]
      obtain ⟨hle, heq⟩ := find_end_take l (i + 1)
      refine ⟨(Nat.le_succ i).trans hle, ?_⟩
      have hsub : find_end l (i + 1) - i = (find_end l (i + 1) - (i + 1)) + 1 := by
        omega
      rw [hdrop, hsub, List.take_succ_cons, List.takeWhile_cons]
      simp only [hc, not_false_iff, decide_True, decide_not, decide_False, Bool.not_false,
        if_true, heq]
  · rw [dif_neg h]
    refine ⟨Nat.le_refl i, ?_⟩
    rw [List.drop_eq_nil_of_le (Nat.le_of_not_lt h)]
    simp
termination_by l.length - i
decreasing_by
  simp_wf
  omega

/-- C8: token extraction never errors.  An offset at or past the end of the
line yields the empty string; an in-range offset yields the space-delimited
token containing the offset, expanded left to the previous space or line
start and right to the next space or line end (for lines whose only
whitespace is the space character, which holds for every cleaned chord and
lyric line: tabs are expanded and newlines removed before extraction). -/
theorem c8_token_extraction (l : List Char) (i : Nat) :
    (l.length ≤ i → extract_item_at_position l i = []) ∧
    (i < l.length → (∀ c ∈ l, pyIsSpace c = true → c = ' ') →
      extract_item_at_position l i = tokenAtSpec l i) := by
  constructor
  · intro h
    unfold extract_item_at_position
    rw [if_pos h]
  · intro h hsp
    unfold extract_item_at_position
    rw [if_neg (Nat.not_le.mpr h)]
    obtain ⟨hsle, hseq⟩ := find_start_take l i (Nat.le_of_lt h)
    obtain ⟨hele, heeq⟩ := find_end_take l i
    have hkey : (l.drop (find_start l i)).take (find_end l i - find_start l i) =
        tokenAtSpec l i := by
      have hsplitn : find_end l i - find_start l i =
          (i - find_start l i) + (find_end l i - i) := by omega
      rw [hsplitn, List.take_add]
      have hdd : (l.drop (find_start l i)).drop (i - find_start l i) = l.drop i := by
        rw [List.drop_drop, show find_start l i + (i - find_start l i) = i from by omega]
      rw [hdd, hseq, heeq]
      rfl
    rw [hkey]
    apply pyStrip_of_no_space
    intro c hc
    have hcni : c ≠ ' ' ∧ c ∈ l := by
      unfold tokenAtSpec at hc
      rcases List.mem_append.mp hc with h1 | h1
      · rw [List.mem_reverse] at h1
        refine ⟨by simpa using List.mem_takeWhile_imp h1, ?_⟩
        have hm := (List.takeWhile_sublist _).subset h1
        rw [List.mem_reverse] at hm
        exact List.take_subset _ _ hm
      · refine ⟨by simpa using List.mem_takeWhile_imp h1, ?_⟩
        exact List.drop_subset _ _ ((List.takeWhile_sublist _).subset h1)
    by_cases hspc : pyIsSpace c = true
    · exact absurd (hsp c hcni.2 hspc) hcni.1
    · simpa using hspc

/-- C8 witness: in `C       G` the offset 8 is inside the token `G`, and
offset 100 is past the end of the line and yields the empty token. -/
theorem c8_token_extraction_witness :
    extract_item_at_position (("C       G").data) 100 = [] ∧
      extract_item_at_position (("C       G").data) 8 = ("G").data := by
  constructor
  · exact (c8_token_extraction (("C       G").data) 100).1 (by decide)
  · exact ((c8_token_extraction (("C       G").data) 8).2 (by decide) (by decide)).trans
      (by decide)

/-- C10: toggling pause in either direction (pause from playing, resume from
paused) mutates only the pause flag, the pause timestamp and the bounce
start timestamp: the current line index, the bounce count, the ball height,
the phase flags and the line number are untouched, and the state stays out
of waiting-for-start.  Moreover the main-loop guard makes a tick of a paused
state a strict no-op. -/
theorem c10_pause_frame (now : ℚ) (s : PlayState)
    (hw : s.waiting_for_start = false) :
    ((handle_play_pause_action now s).current_index = s.current_index ∧
      (handle_play_pause_action now s).bounce_count = s.bounce_count ∧
      (handle_play_pause_action now s).ball_y = s.ball_y ∧
      (handle_play_pause_action now s).rising = s.rising ∧
      (handle_play_pause_action now s).falling = s.falling ∧
      (handle_play_pause_action now s).song_line_number = s.song_line_number ∧
      (handle_play_pause_action now s).waiting_for_start = false) ∧
    (∀ cfg : ClockCfg, s.song_paused = true → tick cfg now s = s) := by
  constructor
  · unfold handle_play_pause_action
    rw [hw]
    by_cases hp : s.song_paused = true
    · simp [hp]
    · simp [hp]
  · intro cfg hp
    unfold tick
    rw [hp]
    simp

def cfgC10 : ClockCfg :=
  { base_bounce_duration := 1
    bounce_duration := 1
    gravity := calculate_gravity 230 920 1
    ball_top := 230
    ball_bottom := 920
    bounces_per_line := 4
    lines_in_song := 28
    have_lines := true }

def sC10 : PlayState :=
  { current_index := 3
    bounce_count := 2
    ball_y := 500
    bounce_start_time := 10
    song_paused := true
    pause_time := 12
    waiting_for_start := false
    rising := true
    falling := false
    song_line_number := 4 }

/-- C10 witness: a concrete paused mid-song state; resuming it keeps the
line index, bounce count and ball height, and ticking it while paused
changes nothing. -/
theorem c10_pause_frame_witness :
    ((handle_play_pause_action 14 sC10).current_index = sC10.current_index ∧
      (handle_play_pause_action 14 sC10).bounce_count = sC10.bounce_count ∧
      (handle_play_pause_action 14 sC10).ball_y = sC10.ball_y ∧
      (handle_play_pause_action 14 sC10).rising = sC10.rising ∧
      (handle_play_pause_action 14 sC10).falling = sC10.falling ∧
      (handle_play_pause_action 14 sC10).song_line_number = sC10.song_line_number ∧
      (handle_play_pause_action 14 sC10).waiting_for_start = false) ∧
    tick cfgC10 14 sC10 = sC10 := by
  have h := c10_pause_frame 14 sC10 rfl
  exact ⟨h.1, h.2 cfgC10 rfl⟩

lemma tick_time_shift (cfg : ClockCfg) (s : PlayState) (dlt q now : ℚ)
    (hw : s.waiting_for_start = false) (hp : s.song_paused = false) :
    tick cfg (now + dlt)
      { s with
        bounce_start_time := s.bounce_start_time + dlt
        pause_time := q
        song_paused := false } =
    { tick cfg now s with
        bounce_start_time := (tick cfg now s).bounce_start_time + dlt
        pause_time := q } := by
  obtain ⟨idx, bc, by0, bst, sp, pt, wf, ri, fa, sln⟩ := s
  dsimp only at hw hp
  subst hw
  subst hp
  unfold tick
  dsimp only
  rw [show now + dlt - (bst + dlt) = now - bst from by ring]
  split_ifs <;> rfl

/-- C4: from any started, unpaused state, pausing at time `p` and resuming
at time `r` shifts the bounce start time forward by exactly `r - p` and
leaves the state unpaused; consequently every later tick of the resumed
state at time `now + (r - p)` produces the same ball height, phase flags,
bounce count, line index and waiting flag as a tick of the original state at
time `now`, with the bounce start time shifted by the same `r - p`: the
trajectory resumes exactly where it paused, delayed by the pause duration. -/
theorem c4_pause_resume (cfg : ClockCfg) (s : PlayState) (p r : ℚ)
    (hw : s.waiting_for_start = false) (hp : s.song_paused = false) :
    (handle_play_pause_action r (handle_play_pause_action p s)).bounce_start_time =
      s.bounce_start_time + (r - p) ∧
    (handle_play_pause_action r (handle_play_pause_action p s)).song_paused = false ∧
    ∀ now : ℚ,
      (tick cfg (now + (r - p)) (handle_play_pause_action r (handle_play_pause_action p s))).ball_y =
        (tick cfg now s).ball_y ∧
      (tick cfg (now + (r - p)) (handle_play_pause_action r (handle_play_pause_action p s))).rising =
        (tick cfg now s).rising ∧
      (tick cfg (now + (r - p)) (handle_play_pause_action r (handle_play_pause_action p s))).falling =
        (tick cfg now s).falling ∧
      (tick cfg (now + (r - p)) (handle_play_pause_action r (handle_play_pause_action p s))).bounce_count =
        (tick cfg now s).bounce_count ∧
      (tick cfg (now + (r - p)) (handle_play_pause_action r (handle_play_pause_action p s))).current_index =
        (tick cfg now s).current_index ∧
      (tick cfg (now + (r - p)) (handle_play_pause_action r (handle_play_pause_action p s))).waiting_for_start =
        (tick cfg now s).waiting_for_start ∧
      (tick cfg (now + (r - p)) (handle_play_pause_action r (handle_play_pause_action p s))).bounce_start_time =
        (tick cfg now s).bounce_start_time + (r - p) := by
  have hs2 : handle_play_pause_action r (handle_play_pause_action p s) =
      { s with
        bounce_start_time := s.bounce_start_time + (r - p)
        pause_time := p
        song_paused := false } := by
    obtain ⟨idx, bc, by0, bst, sp, pt, wf, ri, fa, sln⟩ := s
    dsimp only at hw hp
    subst hw
    subst hp
    unfold handle_play_pause_action
    simp
  rw [hs2]
  refine ⟨rfl, rfl, ?_⟩
  intro now
  rw [tick_time_shift cfg s (r - p) p now hw hp]
  exact ⟨rfl, rfl, rfl, rfl, rfl, rfl, rfl⟩

def cfgC4 : ClockCfg :=
  { base_bounce_duration := 2
    bounce_duration := 2
    gravity := calculate_gravity 230 920 2
    ball_top := 230
    ball_bottom := 920
    bounces_per_line := 4
    lines_in_song := 28
    have_lines := true }

def sC4 : PlayState :=
  { current_index := 2
    bounce_count := 1
    ball_y := 500
    bounce_start_time := 0
    song_paused := false
    pause_time := 0
    waiting_for_start := false
    rising := false
    falling := true
    song_line_number := 3 }

/-- C4 witness: pausing the concrete state at time 1 and resuming at time 3
shifts the bounce start by 2, and a tick at time 3/2 + 2 of the resumed
state reproduces the ball height the original state would have had at
time 3/2. -/
theorem c4_pause_resume_witness :
    (handle_play_pause_action 3 (handle_play_pause_action 1 sC4)).bounce_start_time =
      sC4.bounce_start_time + (3 - 1) ∧
    (handle_play_pause_action 3 (handle_play_pause_action 1 sC4)).song_paused = false ∧
    (tick cfgC4 (3 / 2 + (3 - 1)) (handle_play_pause_action 3 (handle_play_pause_action 1 sC4))).ball_y =
      (tick cfgC4 (3 / 2) sC4).ball_y ∧
    (tick cfgC4 (3 / 2 + (3 - 1)) (handle_play_pause_action 3 (handle_play_pause_action 1 sC4))).bounce_count =
      (tick cfgC4 (3 / 2) sC4).bounce_count := by
  have h := c4_pause_resume cfgC4 sC4 1 3 rfl rfl
  exact ⟨h.1, h.2.1, (h.2.2 (3 / 2)).1, (h.2.2 (3 / 2)).2.2.2.1⟩

def cfgC3 : ClockCfg :=
  { base_bounce_duration := 2
    bounce_duration := 2
    gravity := calculate_gravity 230 920 2
    ball_top := 230
    ball_bottom := 920
    bounces_per_line := 4
    lines_in_song := 28
    have_lines := true }

def sC3 : PlayState :=
  { current_index := 0
    bounce_count := 0
    ball_y := 230
    bounce_start_time := 0
    song_paused := false
    pause_time := 0
    waiting_for_start := false
    rising := false
    falling := true
    song_line_number := 1 }

/-- C3 counterexample: with bounce duration 2 and a bounce started at time
0, a tick exactly at time 2 (that is, at `t0 + bounceDuration`) does not
complete the bounce: the bounce count stays 0 (the claim demands an
increment) and the bounce start time stays 0 (the claim demands a reset to
2); the ball is at the top in the rising phase.  Completion requires
`dt > bounceDuration` strictly. -/
theorem c3_counterexample :
    (tick cfgC3 2 sC3).bounce_count = 0 ∧
      (tick cfgC3 2 sC3).bounce_start_time = 0 ∧
      (tick cfgC3 2 sC3).ball_y = 230 ∧
      (tick cfgC3 2 sC3).rising = true ∧
      sC3.bounce_count = 0 ∧ sC3.bounce_start_time = 0 ∧ cfgC3.bounce_duration = 2 := by
  norm_num [tick, cfgC3, sC3, calculate_gravity]

/-- C3 (amended): for a started, unpaused clock whose gravity is derived
from the bounce duration by `g = 2 (bottom - top) / (duration / 2) ^ 2`:
a tick at `t0 + bounceDuration / 2` puts the ball exactly at the bottom;
a tick exactly at `t0 + bounceDuration` puts the ball at the top in the
rising phase without completing the bounce (bounce count and start time
unchanged); and a tick at any time strictly later than
`t0 + bounceDuration` (short of the line boundary) completes the bounce:
the count increments, the start time resets to `now`, and the ball is at
the top. -/
theorem c3_bounce_boundary (cfg : ClockCfg) (s : PlayState)
    (hg : cfg.gravity = calculate_gravity cfg.ball_top cfg.ball_bottom cfg.bounce_duration)
    (hd : 0 < cfg.bounce_duration)
    (hw : s.waiting_for_start = false) (hp : s.song_paused = false) :
    (tick cfg (s.bounce_start_time + cfg.bounce_duration / 2) s).ball_y = cfg.ball_bottom ∧
    ((tick cfg (s.bounce_start_time + cfg.bounce_duration) s).ball_y = cfg.ball_top ∧
      (tick cfg (s.bounce_start_time + cfg.bounce_duration) s).rising = true ∧
      (tick cfg (s.bounce_start_time + cfg.bounce_duration) s).bounce_count = s.bounce_count ∧
      (tick cfg (s.bounce_start_time + cfg.bounce_duration) s).bounce_start_time =
        s.bounce_start_time) ∧
    (∀ now : ℚ, s.bounce_start_time + cfg.bounce_duration < now →
      s.bounce_count + 1 < cfg.bounces_per_line →
      (tick cfg now s).bounce_count = s.bounce_count + 1 ∧
      (tick cfg now s).bounce_start_time = now ∧
      (tick cfg now s).ball_y = cfg.ball_top) := by
  have hd2 : cfg.bounce_duration / 2 ≠ 0 := div_ne_zero (ne_of_gt hd) two_ne_zero
  have hval : cfg.ball_top + 1 / 2 * cfg.gravity * (cfg.bounce_duration / 2) ^ 2 =
      cfg.ball_bottom := by
    rw [hg]
    unfold calculate_gravity
    field_simp
    ring
  obtain ⟨idx, bc, by0, bst, sp, pt, wf, ri, fa, sln⟩ := s
  dsimp only at hw hp
  subst hw
  subst hp
  refine ⟨?_, ⟨?_, ?_, ?_, ?_⟩, ?_⟩
  · unfold tick
    rw [show bst + cfg.bounce_duration / 2 - bst = cfg.bounce_duration / 2 from by ring]
    rw [if_neg Bool.false_ne_true, if_neg Bool.false_ne_true,
      if_pos (by linarith), if_pos (le_refl _)]
    dsimp only
    rw [hval, if_pos (le_refl _)]
  · unfold tick
    rw [show bst + cfg.bounce_duration - bst = cfg.bounce_duration from by ring]
    rw [if_neg Bool.false_ne_true, if_neg Bool.false_ne_true,
      if_pos (le_refl _), if_neg (by intro hcon; linarith)]
    dsimp only
    rw [show cfg.bounce_duration / 2 - (cfg.bounce_duration - cfg.bounce_duration / 2) = 0
      from by ring]
    rw [show cfg.ball_top + 1 / 2 * cfg.gravity * (0 : ℚ) ^ 2 = cfg.ball_top from by ring]
    rw [if_neg (lt_irrefl _)]
  · unfold tick
    rw [show bst + cfg.bounce_duration - bst = cfg.bounce_duration from by ring]
    rw [if_neg Bool.false_ne_true, if_neg Bool.false_ne_true,
      if_pos (le_refl _), if_neg (by intro hcon; linarith)]
  · unfold tick
    rw [show bst + cfg.bounce_duration - bst = cfg.bounce_duration from by ring]
    rw [if_neg Bool.false_ne_true, if_neg Bool.false_ne_true,
      if_pos (le_refl _), if_neg (by intro hcon; linarith)]
  · unfold tick
    rw [show bst + cfg.bounce_duration - bst = cfg.bounce_duration from by ring]
    rw [if_neg Bool.false_ne_true, if_neg Bool.false_ne_true,
      if_pos (le_refl _), if_neg (by intro hcon; linarith)]
  · intro now hnow hbc
    dsimp only at hnow hbc
    unfold tick
    rw [if_neg Bool.false_ne_true, if_neg Bool.false_ne_true,
      if_neg (by intro hcon; dsimp only at hcon; linarith)]
    dsimp only
    rw [if_neg (by omega)]
    exact ⟨rfl, rfl, rfl⟩

/-- C3 witness: the concrete configuration with duration 2 satisfies the
gravity derivation, and instantiating the boundary theorem at it gives the
exact bottom at the half-period, the top at the full period, and a completed
bounce at time 3. -/
theorem c3_bounce_boundary_witness :
    (tick cfgC3 (sC3.bounce_start_time + cfgC3.bounce_duration / 2) sC3).ball_y =
      cfgC3.ball_bottom ∧
    (tick cfgC3 (sC3.bounce_start_time + cfgC3.bounce_duration) sC3).bounce_count =
      sC3.bounce_count ∧
    (tick cfgC3 3 sC3).bounce_count = sC3.bounce_count + 1 ∧
    (tick cfgC3 3 sC3).bounce_start_time = 3 := by
  have h := c3_bounce_boundary cfgC3 sC3 rfl (by norm_num [cfgC3]) rfl rfl
  have h3 := h.2.2 3 (by norm_num [cfgC3, sC3]) (by norm_num [cfgC3, sC3])
  exact ⟨h.1, h.2.1.2.2.1, h3.1, h3.2.1⟩

/-- C5 (amended): `set_speed` sets the bounce duration to the base duration
divided by the multiplier, recomputes gravity from the new duration with the
same vertical extremes, and leaves the total travel distance
`bottom - top` unchanged.  The change is not deferred to the next bounce
boundary: the configuration read by the very next tick already carries the
new duration and gravity (see the counterexample for the mid-bounce effect). -/
theorem c5_set_speed (cfg : ClockCfg) (m : ℚ) :
    (set_speed cfg m).bounce_duration = cfg.base_bounce_duration / m ∧
    (set_speed cfg m).gravity =
      calculate_gravity cfg.ball_top cfg.ball_bottom (cfg.base_bounce_duration / m) ∧
    (set_speed cfg m).ball_top = cfg.ball_top ∧
    (set_speed cfg m).ball_bottom = cfg.ball_bottom ∧
    (set_speed cfg m).ball_bottom - (set_speed cfg m).ball_top =
      cfg.ball_bottom - cfg.ball_top := by
  unfold set_speed
  exact ⟨rfl, rfl, rfl, rfl, rfl⟩

def cfgC5 : ClockCfg :=
  { base_bounce_duration := 1
    bounce_duration := 1
    gravity := calculate_gravity 230 920 1
    ball_top := 230
    ball_bottom := 920
    bounces_per_line := 4
    lines_in_song := 28
    have_lines := true }

def sC5 : PlayState :=
  { current_index := 0
    bounce_count := 0
    ball_y := 230
    bounce_start_time := 0
    song_paused := false
    pause_time := 0
    waiting_for_start := false
    rising := false
    falling := true
    song_line_number := 1 }

/-- C5 counterexample: doubling the speed mid-bounce changes the in-flight
bounce immediately, not at the next cycle boundary.  With base duration 1
and a bounce started at time 0, a tick at time 0.4 under the old
configuration is still falling at height 671.6; after `set_speed 2` the same
tick is already rising at height 340.4 — the claim that such a tick behaves
as if the old duration were still in force is false. -/
theorem c5_counterexample :
    (set_speed cfgC5 2).bounce_duration = 1 / 2 ∧
      (tick cfgC5 (2 / 5) sC5).falling = true ∧
      (tick cfgC5 (2 / 5) sC5).ball_y = 3358 / 5 ∧
      (tick (set_speed cfgC5 2) (2 / 5) sC5).rising = true ∧
      (tick (set_speed cfgC5 2) (2 / 5) sC5).ball_y = 1702 / 5 ∧
      (tick (set_speed cfgC5 2) (2 / 5) sC5).ball_y ≠ (tick cfgC5 (2 / 5) sC5).ball_y := by
  norm_num [tick, set_speed, calculate_gravity, cfgC5, sC5]
